import Mathlib

/-!
Verification development for the single-table "favorite things" data-entry
application (`src/app.py`).

The program is a straight-line script over one Postgres table
`favorite_things (id SERIAL PRIMARY KEY, name VARCHAR NOT NULL, description TEXT)`.
We embed the database state, the SQL statements the script issues, and the
script's own control flow (which sections render, which messages are emitted)
as executable Lean definitions, and prove the specification's claims about
them.

Python strings are embedded as `List Char`; the nullable `description` column
is `Option (List Char)`; SQL ids are `Nat`.
-/

/-- The four user-facing signal kinds the script emits
(`st.success`, `st.warning`, `st.error`, `st.info`). -/
inductive Sig where
  | success
  | warning
  | error
  | info
deriving DecidableEq

/-- One row of the `favorite_things` table: `id SERIAL PRIMARY KEY`,
`name VARCHAR(255) NOT NULL`, `description TEXT` (nullable). -/
structure Row where
  id : Nat
  name : List Char
  description : Option (List Char)
deriving DecidableEq

/-- A table: its rows plus the state of the backing `SERIAL` sequence
(`nextId` is the id the next insert receives).  `legacyCols` records whether
the columns still carry the legacy names `nazwa` / `opis` (true) or the
current names `name` / `description` (false). -/
structure Table where
  legacyCols : Bool
  nextId : Nat
  rows : List Row
deriving DecidableEq

/-- The database: at most one table under the legacy name `ulubione_rzeczy`
and at most one under the current name `favorite_things`. -/
structure DB where
  ulubione : Option Table
  favorite_things : Option Table
deriving DecidableEq

/-! ### Decimal rendering of ids

The delete selector builds labels with the f-string `f"{row.id}: {row.name}"`;
`str` of a nonnegative integer is its usual base-10 rendering.  We embed it
with a fuel-structured recursion so that it evaluates by `decide`. -/

/-- The character for a single decimal digit (codepoint 48 is the digit 0). -/
def digitChar (k : Nat) : Char := Char.ofNat (48 + k)

/-- Base-10 rendering, accumulator style; `fuel` only drives termination. -/
def toDecimalCore : Nat → Nat → List Char → List Char
  | 0, _, acc => acc
  | fuel + 1, n, acc =>
    if n < 10 then digitChar n :: acc
    else toDecimalCore fuel (n / 10) (digitChar (n % 10) :: acc)

/-- Base-10 rendering of a natural number, as Python `str` renders an id. -/
def toDecimal (n : Nat) : List Char := toDecimalCore (n + 1) n []

/-- Value of a base-10 digit string, used to invert `toDecimal`. -/
def decimalVal (l : List Char) : Nat :=
  l.foldl (fun a c => 10 * a + (c.toNat - 48)) 0

theorem digitChar_toNat {k : Nat} (hk : k < 10) : (digitChar k).toNat = 48 + k := by
  interval_cases k <;> decide

theorem digitChar_ne_colon {k : Nat} (hk : k < 10) : digitChar k ≠ ':' := by
  interval_cases k <;> decide

theorem toDecimalCore_append :
    ∀ (fuel n : Nat) (acc : List Char), n < fuel →
      toDecimalCore fuel n acc = toDecimalCore fuel n [] ++ acc := by
  intro fuel
  induction fuel with
  | zero => intro n acc h; omega
  | succ f ih =>
    intro n acc h
    by_cases h10 : n < 10
    · simp [toDecimalCore, h10]
    · have hdiv : n / 10 < n := Nat.div_lt_self (by omega) (by omega)
      have hf : n / 10 < f := by omega
      simp only [toDecimalCore, if_neg h10]
      rw [ih (n / 10) (digitChar (n % 10) :: acc) hf,
        ih (n / 10) [digitChar (n % 10)] hf, List.append_assoc]
      rfl

theorem toDecimalCore_fuel :
    ∀ (f₁ f₂ n : Nat) (acc : List Char), n < f₁ → n < f₂ →
      toDecimalCore f₁ n acc = toDecimalCore f₂ n acc := by
  intro f₁
  induction f₁ with
  | zero => intro f₂ n acc h; omega
  | succ f ih =>
    intro f₂ n acc h1 h2
    cases f₂ with
    | zero => omega
    | succ g =>
      by_cases h10 : n < 10
      · simp [toDecimalCore, h10]
      · have hdiv : n / 10 < n := Nat.div_lt_self (by omega) (by omega)
        simp only [toDecimalCore, if_neg h10]
        exact ih g (n / 10) _ (by omega) (by omega)

theorem toDecimalCore_no_colon :
    ∀ (fuel n : Nat) (acc : List Char), n < fuel → ':' ∉ acc →
      ':' ∉ toDecimalCore fuel n acc := by
  intro fuel
  induction fuel with
  | zero => intro n acc h; omega
  | succ f ih =>
    intro n acc h hacc
    by_cases h10 : n < 10
    · simp only [toDecimalCore, if_pos h10, List.mem_cons]
      rintro (hc | hc)
      · exact digitChar_ne_colon h10 hc.symm
      · exact hacc hc
    · have hdiv : n / 10 < n := Nat.div_lt_self (by omega) (by omega)
      simp only [toDecimalCore, if_neg h10]
      refine ih (n / 10) _ (by omega) ?_
      simp only [List.mem_cons]
      rintro (hc | hc)
      · exact digitChar_ne_colon (Nat.mod_lt _ (by omega)) hc.symm
      · exact hacc hc

theorem toDecimal_no_colon (n : Nat) : ':' ∉ toDecimal n :=
  toDecimalCore_no_colon (n + 1) n [] (by omega) (by simp)

theorem decimalVal_toDecimalCore :
    ∀ (fuel n : Nat), n < fuel → decimalVal (toDecimalCore fuel n []) = n := by
  intro fuel
  induction fuel with
  | zero => intro n h; omega
  | succ f ih =>
    intro n h
    by_cases h10 : n < 10
    · simp [toDecimalCore, h10, decimalVal, digitChar_toNat h10]
    · have hdiv : n / 10 < n := Nat.div_lt_self (by omega) (by omega)
      have hf : n / 10 < f := by omega
      simp only [toDecimalCore, if_neg h10]
      rw [toDecimalCore_append f (n / 10) _ hf]
      have hmod : (digitChar (n % 10)).toNat = 48 + n % 10 :=
        digitChar_toNat (Nat.mod_lt _ (by omega))
      simp only [decimalVal, List.foldl_append, List.foldl_cons, List.foldl_nil]
      have hv : List.foldl (fun a c => 10 * a + (c.toNat - 48)) 0
          (toDecimalCore f (n / 10) []) = n / 10 := ih (n / 10) hf
      rw [hv, hmod]
      have := Nat.div_add_mod n 10
      omega

theorem decimalVal_toDecimal (n : Nat) : decimalVal (toDecimal n) = n :=
  decimalVal_toDecimalCore (n + 1) n (by omega)

theorem toDecimal_inj {a b : Nat} (h : toDecimal a = toDecimal b) : a = b := by
  have ha := decimalVal_toDecimal a
  have hb := decimalVal_toDecimal b
  rw [h, hb] at ha
  exact ha.symm

/-! ### Label handling for the delete selector

The script builds `delete_options_dict = {f"{row.id}: {row.name}": row.id ...}`
and recovers the display name with `selected_option_str.split(': ', 1)[1]`. -/

/-- The selector label for one row, as `f"{row.id}: {row.name}"` builds it. -/
def labelOf (r : Row) : List Char := toDecimal r.id ++ ':' :: ' ' :: r.name

/-- Split at the first occurrence of the two-character separator colon-space,
returning the parts before and after it; `none` when the separator is absent.
This embeds Python `s.split(': ', 1)`. -/
def splitOnCS : List Char → Option (List Char × List Char)
  | [] => none
  | c :: rest =>
    if c = ':' ∧ rest.head? = some ' ' then some ([], rest.tail)
    else
      match splitOnCS rest with
      | some (pre, suf) => some (c :: pre, suf)
      | none => none

theorem splitOnCS_append {ds : List Char} (hd : ':' ∉ ds) (nm : List Char) :
    splitOnCS (ds ++ ':' :: ' ' :: nm) = some (ds, nm) := by
  induction ds with
  | nil => simp [splitOnCS]
  | cons c ds ih =>
    have hc : c ≠ ':' := fun h => hd (by simp [h])
    have hds : ':' ∉ ds := fun h => hd (by simp [h])
    have hrec := ih hds
    simp [splitOnCS, hc, hrec]

theorem splitOnCS_labelOf (r : Row) :
    splitOnCS (labelOf r) = some (toDecimal r.id, r.name) :=
  splitOnCS_append (toDecimal_no_colon r.id) r.name

theorem labelOf_id_inj {r₁ r₂ : Row} (h : labelOf r₁ = labelOf r₂) :
    r₁.id = r₂.id := by
  have h1 := splitOnCS_labelOf r₁
  rw [h, splitOnCS_labelOf r₂] at h1
  injection h1 with h1
  exact (toDecimal_inj (congrArg Prod.fst h1)).symm

/-! ### Python dict semantics

A dict comprehension inserts key/value pairs in iteration order; a repeated
key overwrites in place.  We embed the dict as an association list built by
`dictInsert` and read by `dictGet`. -/

/-- Insert one binding as a Python dict does: overwrite an existing key in
place, otherwise append at the end (insertion order is preserved). -/
def dictInsert (k : List Char) (v : Nat) :
    List (List Char × Nat) → List (List Char × Nat)
  | [] => [(k, v)]
  | (k', v') :: rest =>
    if k' = k then (k, v) :: rest else (k', v') :: dictInsert k v rest

/-- Build a dict from a list of bindings, first to last. -/
def buildDict (ps : List (List Char × Nat)) : List (List Char × Nat) :=
  ps.foldl (fun d p => dictInsert p.1 p.2 d) []

/-- Dict lookup (`d[k]`): the value bound to `k`, if any. -/
def dictGet (k : List Char) (d : List (List Char × Nat)) : Option Nat :=
  (d.find? (fun p => p.1 = k)).map (fun p => p.2)

theorem dictInsert_of_not_mem {k : List Char} {v : Nat}
    {d : List (List Char × Nat)} (h : k ∉ d.map Prod.fst) :
    dictInsert k v d = d ++ [(k, v)] := by
  induction d with
  | nil => rfl
  | cons p rest ih =>
    have hk : p.1 ≠ k := fun hh => h (by simp [hh])
    have hr : k ∉ rest.map Prod.fst := fun hh => h (by simp [hh])
    cases p with
    | mk k' v' =>
      simp only [dictInsert, if_neg hk, List.cons_append]
      rw [ih hr]

theorem buildDict_nodup_keys :
    ∀ (ps d : List (List Char × Nat)),
      ((d ++ ps).map Prod.fst).Nodup →
      ps.foldl (fun d p => dictInsert p.1 p.2 d) d = d ++ ps := by
  intro ps
  induction ps with
  | nil => intro d h; simp
  | cons p rest ih =>
    intro d h
    have hmem : p.1 ∉ d.map Prod.fst := by
      simp only [List.map_append, List.nodup_append] at h
      intro hc
      exact h.2.2 hc (by simp)
    simp only [List.foldl_cons]
    rw [dictInsert_of_not_mem hmem]
    have h2 : (((d ++ [p]) ++ rest).map Prod.fst).Nodup := by
      simpa using h
    rw [ih (d ++ [p]) h2]
    simp

theorem buildDict_eq_self {ps : List (List Char × Nat)}
    (h : (ps.map Prod.fst).Nodup) : buildDict ps = ps := by
  have := buildDict_nodup_keys ps [] (by simpa using h)
  simpa [buildDict] using this

theorem dictGet_of_mem :
    ∀ {d : List (List Char × Nat)} {k : List Char} {v : Nat},
      (d.map Prod.fst).Nodup → (k, v) ∈ d → dictGet k d = some v := by
  intro d
  induction d with
  | nil => intro k v _ h; simp at h
  | cons p rest ih =>
    intro k v hnd hm
    have hnd' : (rest.map Prod.fst).Nodup := by
      simp only [List.map_cons, List.nodup_cons] at hnd
      exact hnd.2
    rcases List.mem_cons.mp hm with h | h
    · subst h
      simp [dictGet, List.find?]
    · have hk : p.1 ≠ k := by
        intro hh
        simp only [List.map_cons, List.nodup_cons] at hnd
        exact hnd.1 (hh ▸ List.mem_map_of_mem Prod.fst h)
      have : dictGet k rest = some v := ih hnd' h
      simpa [dictGet, List.find?, hk] using this

/-! ### ORDER BY id DESC

The list query is `SELECT id, name, description FROM favorite_things ORDER BY
id DESC`.  We embed the ordering as an insertion sort by descending id over
the stored rows. -/

/-- Insert a row into a list kept sorted by descending id. -/
def insertDesc (r : Row) : List Row → List Row
  | [] => [r]
  | x :: xs => if x.id ≤ r.id then r :: x :: xs else x :: insertDesc r xs

/-- Sort rows by descending id, the order the list query returns. -/
def sortByIdDesc (l : List Row) : List Row := l.foldr insertDesc []

theorem insertDesc_perm (r : Row) : ∀ l : List Row, (insertDesc r l).Perm (r :: l) := by
  intro l
  induction l with
  | nil => simp [insertDesc]
  | cons x xs ih =>
    by_cases h : x.id ≤ r.id
    · simp [insertDesc, h]
    · simp only [insertDesc, if_neg h]
      exact (ih.cons x).trans (List.Perm.swap r x xs)

theorem sortByIdDesc_perm : ∀ l : List Row, (sortByIdDesc l).Perm l := by
  intro l
  induction l with
  | nil => simp [sortByIdDesc]
  | cons x xs ih =>
    have : sortByIdDesc (x :: xs) = insertDesc x (sortByIdDesc xs) := rfl
    rw [this]
    exact (insertDesc_perm x (sortByIdDesc xs)).trans (ih.cons x)

theorem insertDesc_pairwise {r : Row} {l : List Row}
    (h : l.Pairwise (fun a b => b.id ≤ a.id)) :
    (insertDesc r l).Pairwise (fun a b => b.id ≤ a.id) := by
  induction l with
  | nil => simp [insertDesc]
  | cons x xs ih =>
    rcases List.pairwise_cons.mp h with ⟨hx, hxs⟩
    by_cases hc : x.id ≤ r.id
    · simp only [insertDesc, if_pos hc]
      refine List.pairwise_cons.mpr ⟨?_, h⟩
      intro y hy
      rcases List.mem_cons.mp hy with hy | hy
      · exact hy ▸ hc
      · exact le_trans (hx y hy) hc
    · simp only [insertDesc, if_neg hc]
      refine List.pairwise_cons.mpr ⟨?_, ih hxs⟩
      intro y hy
      have := (insertDesc_perm r xs).mem_iff.mp hy
      rcases List.mem_cons.mp this with hy | hy
      · subst hy; omega
      · exact hx y hy

theorem sortByIdDesc_pairwise :
    ∀ l : List Row, (sortByIdDesc l).Pairwise (fun a b => b.id ≤ a.id) := by
  intro l
  induction l with
  | nil => simp [sortByIdDesc]
  | cons x xs ih => exact insertDesc_pairwise ih

theorem pairwise_lt_of_le_of_ne {l : List Row}
    (h1 : l.Pairwise (fun a b => b.id ≤ a.id))
    (h2 : (l.map Row.id).Nodup) :
    l.Pairwise (fun a b => b.id < a.id) := by
  have h2' : l.Pairwise (fun a b => a.id ≠ b.id) := List.pairwise_map.mp h2
  exact (h1.and h2').imp (fun hab => lt_of_le_of_ne hab.1 (Ne.symm hab.2))

/-! ### The SQL operations and the script's handlers -/

/-- The idempotent startup DDL `CREATE TABLE IF NOT EXISTS favorite_things`
wrapped as `create_table_if_not_exists` in the script: the exception handler
reports an error (second component `true`) and the function returns normally
in every case. -/
def createTableIfNotExists (db : DB) (fault : Bool) : DB × Bool :=
  if fault then (db, true)
  else
    match db.favorite_things with
    | some _ => (db, false)
    | none =>
      ({ db with favorite_things := some { legacyCols := false, nextId := 1, rows := [] } }, false)

/-- Migration step 1: if a table named `ulubione_rzeczy` exists, the script
drops `favorite_things` (if present) and renames `ulubione_rzeczy` to
`favorite_things`, then reruns. -/
def migrateStep1 (db : DB) : DB :=
  match db.ulubione with
  | some t => { ulubione := none, favorite_things := some t }
  | none => db

/-- Migration step 2: if `favorite_things` still has a column `nazwa`, the
script renames the columns `nazwa` / `opis` to `name` / `description`, then
reruns. -/
def migrateStep2 (db : DB) : DB :=
  match db.favorite_things with
  | some t =>
    if t.legacyCols then { db with favorite_things := some { t with legacyCols := false } }
    else db
  | none => db

/-- Net effect of the one-time migration block on the database: step 1, a
rerun (on which the step-1 check is a no-op), then step 2. -/
def migrate (db : DB) : DB := migrateStep2 (migrateStep1 db)

/-- Postgres assignment of a string to the `name VARCHAR(255)` column: a
value of at most 255 characters is stored as is; an over-length value whose
excess characters are all spaces is truncated to 255 characters; any other
over-length value raises a value-too-long error (`none`). -/
def varcharFit (nm : List Char) : Option (List Char) :=
  if nm.length ≤ 255 then some nm
  else if (nm.drop 255).all (fun c => c = ' ') then some (nm.take 255)
  else none

/-- `INSERT INTO favorite_things (name, description) VALUES (...)`: fails
(`none`) when the table or its current-name columns do not exist or the name
does not fit the `VARCHAR(255)` column; otherwise stores the (possibly
space-truncated) name and the description string (never NULL) under the next
serial id. -/
def insertRow (db : DB) (nm ds : List Char) : Option DB :=
  match db.favorite_things with
  | some t =>
    if t.legacyCols then none
    else
      match varcharFit nm with
      | some nm2 =>
        some { db with favorite_things := some { t with
          nextId := t.nextId + 1,
          rows := t.rows ++ [{ id := t.nextId, name := nm2, description := some ds }] } }
      | none => none
  | none => none

/-- The add-form submit handler: `if new_thing_name:` guards the insert, so
only the empty string is rejected locally (warning); a store failure is
caught and reported as an error; otherwise the row is inserted and a success
message is shown. -/
def addForm (db : DB) (fault : Bool) (nm ds : List Char) : DB × Sig :=
  if nm = [] then (db, Sig.warning)
  else if fault then (db, Sig.error)
  else
    match insertRow db nm ds with
    | some db2 => (db2, Sig.success)
    | none => (db, Sig.error)

/-- `SELECT id, name, description FROM favorite_things ORDER BY id DESC`:
fails (`none`) on a store fault or when the table or its current-name
columns are missing. -/
def listRows (db : DB) (fault : Bool) : Option (List Row) :=
  if fault then none
  else
    match db.favorite_things with
    | some t => if t.legacyCols then none else some (sortByIdDesc t.rows)
    | none => none

/-- `DELETE FROM favorite_things WHERE id = :id_param`: removes every row
with the given id (at most one when ids are unique); deleting an absent id
leaves the rows unchanged and is still a successful statement. -/
def deleteRow (db : DB) (i : Nat) : Option DB :=
  match db.favorite_things with
  | some t =>
    if t.legacyCols then none
    else some { db with favorite_things := some { t with rows := t.rows.filter (fun r => r.id != i) } }
  | none => none

/-- The remove-button handler around the DELETE statement: a store failure
is caught and reported as an error, otherwise a success message is shown. -/
def removeSelected (db : DB) (fault : Bool) (i : Nat) : DB × Sig :=
  if fault then (db, Sig.error)
  else
    match deleteRow db i with
    | some db2 => (db2, Sig.success)
    | none => (db, Sig.error)

/-- The HARD RESET handler: `DROP TABLE IF EXISTS favorite_things`. -/
def resetTable (db : DB) : DB := { db with favorite_things := none }

/-- The delete selector dict,
`{f"{row.id}: {row.name}": row.id for row in favorite_things_df.itertuples()}`. -/
def deleteOptionsDict (rows : List Row) : List (List Char × Nat) :=
  buildDict (rows.map (fun r => (labelOf r, r.id)))

/-- The well-formedness the store itself maintains for `favorite_things`:
current column names, every id below the serial counter, and ids unique
(`id SERIAL PRIMARY KEY`). -/
def wfTable (t : Table) : Prop :=
  t.legacyCols = false ∧ (∀ r ∈ t.rows, r.id < t.nextId) ∧ (t.rows.map Row.id).Nodup

instance (t : Table) : Decidable (wfTable t) := by
  unfold wfTable
  exact inferInstance

/-- The empty database: neither table exists yet. -/
def emptyDB : DB := { ulubione := none, favorite_things := none }

/-- The table as first created by the Schema Initializer. -/
def initTable : Table := { legacyCols := false, nextId := 1, rows := [] }

/-- The database after the Schema Initializer first runs on a fresh store. -/
def initDB : DB := (createTableIfNotExists emptyDB false).1

/-- Run a sequence of create operations (name, description pairs) through
the add-form handler, threading the database state. -/
def applyCreates (db : DB) (inputs : List (List Char × List Char)) : DB :=
  inputs.foldl (fun d p => (addForm d false p.1 p.2).1) db

/-! ### The script as a whole

`app.py` is a straight-line script: migration block (whose exception handler
calls `st.stop()`), then `create_table_if_not_exists()` (whose exception
handler only reports), then the CREATE, READ and DELETE sections in order.
Nothing between the sections stops execution. -/

/-- Which store interactions raise an exception during one run. -/
structure Faults where
  migrationFault : Bool
  createTableFault : Bool
  insertFault : Bool
  selectFault : Bool
deriving DecidableEq

/-- The observable outcome of one top-to-bottom run of the script. -/
structure RunResult where
  db : DB
  stopped : Bool
  initErrorShown : Bool
  addReached : Bool
  addSig : Option Sig
  readReached : Bool
  readErrorShown : Bool
  df : List Row
  deleteReached : Bool
  deleteOptions : List (List Char × Nat)
  deleteEmptyInfo : Bool
deriving DecidableEq

/-- One top-to-bottom run of the script: the migration block (stopping the
app on a migration fault), the Schema Initializer (reporting but never
stopping), the optional form submission, the READ section (substituting an
empty frame on failure), and the DELETE section built from the frame the
READ section left behind. -/
def runScript (db0 : DB) (f : Faults) (submission : Option (List Char × List Char)) :
    RunResult :=
  if f.migrationFault then
    { db := db0, stopped := true, initErrorShown := false,
      addReached := false, addSig := none,
      readReached := false, readErrorShown := false, df := [],
      deleteReached := false, deleteOptions := [], deleteEmptyInfo := false }
  else
    let db1 := migrate db0
    let ctr := createTableIfNotExists db1 f.createTableFault
    let add :=
      match submission with
      | none => (ctr.1, (none : Option Sig))
      | some p =>
        let a := addForm ctr.1 f.insertFault p.1 p.2
        (a.1, some a.2)
    let rd :=
      match listRows add.1 f.selectFault with
      | some l => (l, false)
      | none => (([] : List Row), true)
    { db := add.1, stopped := false, initErrorShown := ctr.2,
      addReached := true, addSig := add.2,
      readReached := true, readErrorShown := rd.2, df := rd.1,
      deleteReached := true,
      deleteOptions := if rd.1.isEmpty then [] else deleteOptionsDict rd.1,
      deleteEmptyInfo := rd.1.isEmpty }

/-! ### Store invariants -/

theorem wfTable_initTable : wfTable initTable := by
  constructor
  · rfl
  · exact ⟨by intro r hr; simp [initTable] at hr, by simp [initTable]⟩

theorem initDB_favs : initDB.favorite_things = some initTable := rfl

/-- The table after one successful insert of `(nm, ds)`. -/
def insertedTable (t : Table) (nm ds : List Char) : Table :=
  { legacyCols := t.legacyCols, nextId := t.nextId + 1,
    rows := t.rows ++ [{ id := t.nextId, name := nm, description := some ds }] }

theorem insertRow_eq {db : DB} {t : Table} (h : db.favorite_things = some t)
    (hl : t.legacyCols = false) {nm : List Char} (hlen : nm.length ≤ 255)
    (ds : List Char) :
    insertRow db nm ds = some { db with favorite_things := some (insertedTable t nm ds) } := by
  simp [insertRow, h, hl, varcharFit, hlen, insertedTable]

theorem wfTable_insert {t : Table} (hw : wfTable t) (nm ds : List Char) :
    wfTable (insertedTable t nm ds) := by
  unfold insertedTable
  rcases hw with ⟨hl, hb, hn⟩
  refine ⟨hl, ?_, ?_⟩
  · intro r hr
    simp only [List.mem_append, List.mem_singleton] at hr
    rcases hr with hr | hr
    · exact Nat.lt_succ_of_lt (hb r hr)
    · subst hr
      simp
  · simp only [List.map_append, List.map_cons, List.map_nil, List.nodup_append]
    refine ⟨hn, List.nodup_singleton _, ?_⟩
    intro a ha hmem
    simp only [List.mem_singleton] at hmem
    subst hmem
    rcases List.mem_map.mp ha with ⟨r, hr, hid⟩
    have := hb r hr
    omega

theorem addForm_insert {db : DB} {t : Table} (h : db.favorite_things = some t)
    (hl : t.legacyCols = false) {nm : List Char} (hnm : nm ≠ [])
    (hlen : nm.length ≤ 255) (ds : List Char) :
    addForm db false nm ds =
      ({ db with favorite_things := some (insertedTable t nm ds) }, Sig.success) := by
  simp [addForm, hnm, insertRow_eq h hl hlen]

/-- State preserved by a run of create operations: the table exists, stays
well formed, and every row is either an original row or carries a non-NULL
description written by the insert statement. -/
theorem applyCreates_wf :
    ∀ (inputs : List (List Char × List Char)) (db : DB) (t : Table),
      db.favorite_things = some t → wfTable t →
      ∃ t2, (applyCreates db inputs).favorite_things = some t2 ∧ wfTable t2 ∧
        (∀ r ∈ t2.rows, r ∈ t.rows ∨ r.description ≠ none) := by
  intro inputs
  induction inputs with
  | nil =>
    intro db t h hw
    exact ⟨t, h, hw, fun r hr => Or.inl hr⟩
  | cons p rest ih =>
    intro db t h hw
    by_cases hnm : p.1 = []
    · have hstep : (addForm db false p.1 p.2).1 = db := by
        simp [addForm, hnm]
      have : applyCreates db (p :: rest) = applyCreates db rest := by
        simp [applyCreates, hstep]
      rw [this]
      exact ih db t h hw
    · have hrw : applyCreates db (p :: rest) =
          applyCreates (addForm db false p.1 p.2).1 rest := by
        simp [applyCreates]
      cases hv : varcharFit p.1 with
      | none =>
        have hstep : (addForm db false p.1 p.2).1 = db := by
          simp [addForm, hnm, insertRow, h, hw.1, hv]
        rw [hrw, hstep]
        exact ih db t h hw
      | some nm2 =>
        have hstep : (addForm db false p.1 p.2).1 =
            { db with favorite_things := some (insertedTable t nm2 p.2) } := by
          simp [addForm, hnm, insertRow, h, hw.1, hv, insertedTable]
        rw [hrw, hstep]
        rcases ih { db with favorite_things := some (insertedTable t nm2 p.2) }
            (insertedTable t nm2 p.2) rfl (wfTable_insert hw nm2 p.2) with ⟨t2, h2, hw2, hd2⟩
        refine ⟨t2, h2, hw2, ?_⟩
        intro r hr
        rcases hd2 r hr with hr2 | hr2
        · simp only [insertedTable, List.mem_append, List.mem_singleton] at hr2
          rcases hr2 with hr3 | hr3
          · exact Or.inl hr3
          · right
            subst hr3
            simp
        · exact Or.inr hr2

theorem listRows_eq {db : DB} {t : Table} (h : db.favorite_things = some t)
    (hl : t.legacyCols = false) :
    listRows db false = some (sortByIdDesc t.rows) := by
  simp [listRows, h, hl]

/-! ### Further helper lemmas shared by the claim theorems -/

theorem head_eq_of_max {l : List Row} {r : Row} (hmem : r ∈ l)
    (hs : l.Pairwise (fun a b => b.id ≤ a.id))
    (hmax : ∀ x ∈ l, x ≠ r → x.id < r.id) : l.head? = some r := by
  cases l with
  | nil => simp at hmem
  | cons a tl =>
    by_cases ha : a = r
    · simp [ha]
    · exfalso
      have hlt : a.id < r.id := hmax a (by simp) ha
      rcases List.mem_cons.mp hmem with h | h
      · exact ha h.symm
      · have := (List.pairwise_cons.mp hs).1 r h
        omega

theorem filter_ne_of_not_mem {l : List Row} {i : Nat} (h : ∀ r ∈ l, r.id ≠ i) :
    l.filter (fun r => r.id != i) = l :=
  List.filter_eq_self.mpr (fun a ha => by simpa [bne_iff_ne] using h a ha)

theorem filter_ne_length {l : List Row} {i : Nat} (hn : (l.map Row.id).Nodup)
    (hmem : i ∈ l.map Row.id) :
    (l.filter (fun r => r.id != i)).length + 1 = l.length := by
  induction l with
  | nil => simp at hmem
  | cons a tl ih =>
    simp only [List.map_cons, List.nodup_cons] at hn
    by_cases ha : a.id = i
    · have htl : ∀ r ∈ tl, r.id ≠ i := by
        intro r hr hri
        exact hn.1 (ha ▸ hri ▸ List.mem_map_of_mem Row.id hr)
      simp [List.filter_cons, ha, filter_ne_of_not_mem htl]
    · have hmem' : i ∈ tl.map Row.id := by
        rcases List.mem_map.mp hmem with ⟨r, hr, hri⟩
        rcases List.mem_cons.mp hr with h | h
        · exact absurd (h ▸ hri) ha
        · exact hri ▸ List.mem_map_of_mem Row.id h
      have := ih hn.2 hmem'
      simp only [List.filter_cons, List.length_cons]
      have hb : (a.id != i) = true := by simpa [bne_iff_ne] using ha
      rw [hb]
      simp only [if_true, List.length_cons]
      omega

/-! ## The claims -/

/-- C1, counterexample: the claim says a whitespace-only name is rejected
with no row inserted, but submitting the single-space name through the add
form succeeds and changes the observed list content. -/
theorem c1_whitespace_name_inserted_cex :
    (addForm initDB false [' '] []).2 = Sig.success ∧
    listRows (addForm initDB false [' '] []).1 false ≠ listRows initDB false := by
  decide

/-- C1, amended: only the genuinely empty name is rejected locally with a
validation warning before any store access: the add form returns the state
unchanged (for any store-fault setting, since the store is never reached)
and the list content observed before and after is identical.  Whitespace-only
but non-empty names are not rejected. -/
theorem c1_empty_name_rejected (db : DB) (fault : Bool) (ds : List Char) :
    addForm db fault [] ds = (db, Sig.warning) ∧
    listRows (addForm db fault [] ds).1 false = listRows db false := by
  constructor
  · simp [addForm]
  · simp [addForm]

/-- A legacy table holding one record, for exercising the migration. -/
def legacyTbl : Table :=
  { legacyCols := true, nextId := 2,
    rows := [{ id := 1, name := ['a'], description := some ['x'] }] }

/-- A record stored under the current table name before the migration runs. -/
def clashRow : Row := { id := 1, name := ['b'], description := some ['y'] }

/-- A database where both the legacy table and a populated current-name
table exist. -/
def clashDB : DB :=
  { ulubione := some legacyTbl,
    favorite_things := some { legacyCols := false, nextId := 2, rows := [clashRow] } }

/-- All records stored anywhere in the database. -/
def storedRows (db : DB) : List Row :=
  (match db.ulubione with | some t => t.rows | none => []) ++
    (match db.favorite_things with | some t => t.rows | none => [])

/-- C2, counterexample: the claim says no stored record is destroyed by the
migration, but when a populated table already exists under the current name
while the legacy table is present, the migration's DROP destroys its rows. -/
theorem c2_migration_destroys_record_cex :
    clashRow ∈ storedRows clashDB ∧ clashRow ∉ storedRows (migrate clashDB) := by
  decide

/-- C2, amended: the one-time migration, run at startup before the Schema
Initializer, renames the legacy table and legacy columns in place to the
current names and preserves all row data of the legacy table (the Schema
Initializer then leaves the renamed table untouched); however any table
already stored under the current name is dropped, so its rows are destroyed
rather than preserved. -/
theorem c2_migration_renames_preserving_legacy_rows (db : DB) (t : Table)
    (h : db.ulubione = some t) :
    (migrate db).ulubione = none ∧
    (migrate db).favorite_things =
      some { legacyCols := false, nextId := t.nextId, rows := t.rows } ∧
    (createTableIfNotExists (migrate db) false).1 = migrate db := by
  rcases t with ⟨lc, ni, rs⟩
  cases lc <;>
    simp [migrate, migrateStep1, migrateStep2, h, createTableIfNotExists]

/-- C2 witness: the amended theorem applied to a database holding only the
populated legacy table. -/
theorem c2_migration_witness :
    (migrate { ulubione := some legacyTbl, favorite_things := none }).ulubione = none ∧
    (migrate { ulubione := some legacyTbl, favorite_things := none }).favorite_things =
      some { legacyCols := false, nextId := legacyTbl.nextId, rows := legacyTbl.rows } ∧
    (createTableIfNotExists
        (migrate { ulubione := some legacyTbl, favorite_things := none }) false).1 =
      migrate { ulubione := some legacyTbl, favorite_things := none } :=
  c2_migration_renames_preserving_legacy_rows
    { ulubione := some legacyTbl, favorite_things := none } legacyTbl rfl

/-- C8: for every database state, the HARD RESET handler drops the whole
table (destroying all records), and re-running the Schema Initializer
afterwards yields a state whose list is empty. -/
theorem c8_reset_then_init_lists_empty (db : DB) :
    (resetTable db).favorite_things = none ∧
    listRows (createTableIfNotExists (resetTable db) false).1 false = some [] := by
  constructor
  · rfl
  · simp [resetTable, createTableIfNotExists, listRows, sortByIdDesc]

/-- The fault pattern of a run in which only the create-table DDL fails. -/
def createTableFaults : Faults :=
  { migrationFault := false, createTableFault := true,
    insertFault := false, selectFault := false }

/-- C3, counterexample: the claim says a failed Schema Initializer run stops
the system before the Create/List/Delete sections, but on a run whose
create-table statement raises, the script still reaches all three sections
(the handler only reports the error). -/
theorem c3_sections_reached_after_init_failure_cex :
    (runScript emptyDB createTableFaults none).initErrorShown = true ∧
    (runScript emptyDB createTableFaults none).stopped = false ∧
    (runScript emptyDB createTableFaults none).addReached = true ∧
    (runScript emptyDB createTableFaults none).readReached = true ∧
    (runScript emptyDB createTableFaults none).deleteReached = true := by
  decide

/-- C3, amended: if the Schema Initializer's create-table statement raises
any execution error, the error is caught inside `create_table_if_not_exists`
and reported as an error message, and the script is not stopped: the
subsequent Create/List/Delete sections are all still reached (their own
store calls then fail individually while the table is missing). -/
theorem c3_init_failure_reported_not_fatal (db : DB) (f : Faults)
    (sub : Option (List Char × List Char))
    (hm : f.migrationFault = false) (hc : f.createTableFault = true) :
    (runScript db f sub).initErrorShown = true ∧
    (runScript db f sub).stopped = false ∧
    (runScript db f sub).addReached = true ∧
    (runScript db f sub).readReached = true ∧
    (runScript db f sub).deleteReached = true := by
  simp [runScript, hm, hc, createTableIfNotExists]

/-- C3 witness: the amended theorem applied to the fresh store with only the
create-table statement failing. -/
theorem c3_init_failure_witness :
    (runScript emptyDB createTableFaults (some (['a'], []))).initErrorShown = true ∧
    (runScript emptyDB createTableFaults (some (['a'], []))).stopped = false ∧
    (runScript emptyDB createTableFaults (some (['a'], []))).addReached = true ∧
    (runScript emptyDB createTableFaults (some (['a'], []))).readReached = true ∧
    (runScript emptyDB createTableFaults (some (['a'], []))).deleteReached = true :=
  c3_init_failure_reported_not_fatal emptyDB createTableFaults (some (['a'], [])) rfl rfl

/-- C4: for every sequence of Create operations run against the freshly
initialized store, the List operation succeeds, returns exactly the current
table content (a permutation of the stored rows), and is sorted by id
strictly descending, so the record with the highest id comes first. -/
theorem c4_list_sorted_strictly_descending (inputs : List (List Char × List Char)) :
    ∃ t, (applyCreates initDB inputs).favorite_things = some t ∧
      listRows (applyCreates initDB inputs) false = some (sortByIdDesc t.rows) ∧
      (sortByIdDesc t.rows).Perm t.rows ∧
      (sortByIdDesc t.rows).Pairwise (fun a b => b.id < a.id) := by
  rcases applyCreates_wf inputs initDB initTable initDB_favs wfTable_initTable with
    ⟨t, h, hw, _⟩
  refine ⟨t, h, listRows_eq h hw.1, sortByIdDesc_perm t.rows, ?_⟩
  apply pairwise_lt_of_le_of_ne (sortByIdDesc_pairwise t.rows)
  exact (((sortByIdDesc_perm t.rows).map Row.id).symm).nodup hw.2.2

/-- The fault pattern of a run in which only the list query fails. -/
def selectFaults : Faults :=
  { migrationFault := false, createTableFault := false,
    insertFault := false, selectFault := true }

/-- C7: when the List query fails with a store-level error, the failure is
reported, the script substitutes an empty frame for the rows, and the
remaining sections still render: the delete section is reached, offers no
options, and shows the empty-list notice instead of failing. -/
theorem c7_list_failure_leaves_delete_empty (db : DB) (f : Faults)
    (sub : Option (List Char × List Char))
    (hm : f.migrationFault = false) (hs : f.selectFault = true) :
    (runScript db f sub).readErrorShown = true ∧
    (runScript db f sub).df = [] ∧
    (runScript db f sub).deleteReached = true ∧
    (runScript db f sub).deleteOptions = [] ∧
    (runScript db f sub).deleteEmptyInfo = true := by
  simp [runScript, hm, hs, listRows]

/-- C7 witness: the theorem applied to the fresh store with only the list
query failing. -/
theorem c7_list_failure_witness :
    (runScript emptyDB selectFaults none).readErrorShown = true ∧
    (runScript emptyDB selectFaults none).df = [] ∧
    (runScript emptyDB selectFaults none).deleteReached = true ∧
    (runScript emptyDB selectFaults none).deleteOptions = [] ∧
    (runScript emptyDB selectFaults none).deleteEmptyInfo = true :=
  c7_list_failure_leaves_delete_empty emptyDB selectFaults none rfl rfl

/-- C9: every record created through the add form stores the description
string itself (the empty string when left blank), never NULL: after any
sequence of creates against the freshly initialized store, every listed
record has a non-null description field. -/
theorem c9_descriptions_never_null (inputs : List (List Char × List Char)) :
    ((listRows (applyCreates initDB inputs) false).getD []).all
      (fun r => r.description.isSome) = true := by
  rcases applyCreates_wf inputs initDB initTable initDB_favs wfTable_initTable with
    ⟨t, h, hw, hd⟩
  rw [listRows_eq h hw.1, Option.getD_some, List.all_eq_true]
  intro r hr
  have hmem : r ∈ t.rows := (sortByIdDesc_perm t.rows).mem_iff.mp hr
  rcases hd r hmem with hcase | hcase
  · simp [initTable] at hcase
  · exact Option.isSome_iff_ne_none.mpr hcase

/-- The table after the DELETE statement for id `i` ran against `t`. -/
def filteredTable (t : Table) (i : Nat) : Table :=
  { legacyCols := t.legacyCols, nextId := t.nextId,
    rows := t.rows.filter (fun r => r.id != i) }

/-- The database state after deleting id `i` from the table `t` of `db`. -/
def deletedDB (db : DB) (t : Table) (i : Nat) : DB :=
  { ulubione := db.ulubione, favorite_things := some (filteredTable t i) }

/-- C5: for every well-formed table state, the remove handler reports
success; if the listed content contains a record with the selected id, the
list observed afterwards is shorter by exactly one and contains no record
with that id; deleting an id not present leaves the list unchanged (a
silent no-op also reported as success). -/
theorem c5_delete_removes_exactly_one (db : DB) (t : Table) (i : Nat)
    (h : db.favorite_things = some t) (hw : wfTable t) :
    (removeSelected db false i).2 = Sig.success ∧
    ∃ lb la, listRows db false = some lb ∧
      listRows (removeSelected db false i).1 false = some la ∧
      ((∃ r ∈ lb, r.id = i) → la.length + 1 = lb.length ∧ ∀ r ∈ la, r.id ≠ i) ∧
      ((∀ r ∈ lb, r.id ≠ i) → la = lb) := by
  have hdel : deleteRow db i = some (deletedDB db t i) := by
    simp [deleteRow, h, hw.1, deletedDB, filteredTable]
  have hrs : removeSelected db false i = (deletedDB db t i, Sig.success) := by
    simp [removeSelected, hdel]
  refine ⟨by rw [hrs], sortByIdDesc t.rows,
    sortByIdDesc (t.rows.filter (fun r => r.id != i)), listRows_eq h hw.1, ?_, ?_, ?_⟩
  · rw [hrs]
    exact @listRows_eq (deletedDB db t i) (filteredTable t i) rfl hw.1
  · rintro ⟨r, hr, hri⟩
    have hmem : i ∈ t.rows.map Row.id := by
      have : r ∈ t.rows := (sortByIdDesc_perm t.rows).mem_iff.mp hr
      exact hri ▸ List.mem_map_of_mem Row.id this
    constructor
    · have h1 := (sortByIdDesc_perm (t.rows.filter (fun r => r.id != i))).length_eq
      have h2 := (sortByIdDesc_perm t.rows).length_eq
      have h3 := filter_ne_length hw.2.2 hmem
      omega
    · intro x hx
      have : x ∈ t.rows.filter (fun r => r.id != i) :=
        (sortByIdDesc_perm _).mem_iff.mp hx
      have := (List.mem_filter.mp this).2
      simpa [bne_iff_ne] using this
  · intro hall
    have : t.rows.filter (fun r => r.id != i) = t.rows :=
      filter_ne_of_not_mem
        (fun r hr => hall r ((sortByIdDesc_perm t.rows).mem_iff.mpr hr))
    rw [this]

/-- A one-record table used to exercise the delete handler. -/
def c5tbl : Table :=
  { legacyCols := false, nextId := 2,
    rows := [{ id := 1, name := ['a'], description := some [] }] }

/-- A database holding only `c5tbl`. -/
def c5db : DB := { ulubione := none, favorite_things := some c5tbl }

/-- C5 witness: the theorem applied to a one-record table with the stored
id selected. -/
theorem c5_delete_witness :
    (removeSelected c5db false 1).2 = Sig.success ∧
    ∃ lb la, listRows c5db false = some lb ∧
      listRows (removeSelected c5db false 1).1 false = some la ∧
      ((∃ r ∈ lb, r.id = 1) → la.length + 1 = lb.length ∧ ∀ r ∈ la, r.id ≠ 1) ∧
      ((∀ r ∈ lb, r.id ≠ 1) → la = lb) :=
  c5_delete_removes_exactly_one c5db c5tbl 1 rfl (by decide)

/-- A 256-character name, exceeding the `VARCHAR(255)` column width. -/
def c6longName : List Char := List.replicate 256 'a'

set_option maxRecDepth 20000 in
/-- C6, counterexample: the claim quantifies over every non-empty name, but
the schema declares `name VARCHAR(255)`, so submitting a 256-character name
makes the insert raise a value-too-long store error: the handler reports an
error and the subsequent list is still empty, with no first element carrying
that name. -/
theorem c6_long_name_rejected_cex :
    (addForm initDB false c6longName []).2 = Sig.error ∧
    listRows (addForm initDB false c6longName []).1 false = some [] := by
  decide

/-- C6, amended: for every well-formed table state, every non-empty name of
at most 255 characters (the `VARCHAR(255)` column width) and every
description (the empty string included), submitting the add form and then
listing yields a non-empty sequence whose first element carries exactly the
submitted name and description (under the fresh serial id).  Longer names
are rejected by the store with a value-too-long error (or space-truncated
when the excess is all spaces), so the success contract holds only within
the column width. -/
theorem c6_create_then_list_head (db : DB) (t : Table) (nm ds : List Char)
    (h : db.favorite_things = some t) (hw : wfTable t) (hnm : nm ≠ [])
    (hlen : nm.length ≤ 255) :
    ∃ l, listRows (addForm db false nm ds).1 false = some l ∧
      l.head? = some { id := t.nextId, name := nm, description := some ds } := by
  have hstep := addForm_insert h hw.1 hnm hlen ds
  refine ⟨sortByIdDesc (insertedTable t nm ds).rows, ?_, ?_⟩
  · rw [hstep]
    exact @listRows_eq { db with favorite_things := some (insertedTable t nm ds) }
      (insertedTable t nm ds) rfl hw.1
  · apply head_eq_of_max
    · exact (sortByIdDesc_perm _).mem_iff.mpr (by simp [insertedTable])
    · exact sortByIdDesc_pairwise _
    · intro x hx hxne
      have hx' : x ∈ t.rows ++ [{ id := t.nextId, name := nm, description := some ds }] := by
        have := (sortByIdDesc_perm (insertedTable t nm ds).rows).mem_iff.mp hx
        simpa [insertedTable] using this
      rcases List.mem_append.mp hx' with hx2 | hx2
      · exact hw.2.1 x hx2
      · simp only [List.mem_singleton] at hx2
        exact absurd hx2 hxne

/-- C6 witness: the amended theorem applied to the freshly initialized
store with name the one-letter string and the empty description. -/
theorem c6_create_witness :
    ∃ l, listRows (addForm initDB false ['a'] []).1 false = some l ∧
      l.head? = some { id := initTable.nextId, name := ['a'], description := some [] } :=
  c6_create_then_list_head initDB initTable ['a'] [] rfl wfTable_initTable
    (by decide) (by decide)

/-- C10: for every list of records with pairwise-distinct ids, the delete
selector's dict has exactly one entry per record (same length, no duplicate
labels), resolving any record's label yields that record's id, and the name
recovered from the label by splitting at the first colon-space equals the
record's full name, even when names repeat or themselves contain the
separator. -/
theorem c10_delete_selector_dict (rows : List Row) (hn : (rows.map Row.id).Nodup) :
    (deleteOptionsDict rows).length = rows.length ∧
    ((deleteOptionsDict rows).map Prod.fst).Nodup ∧
    ∀ r ∈ rows,
      dictGet (labelOf r) (deleteOptionsDict rows) = some r.id ∧
      (splitOnCS (labelOf r)).map (fun q => q.2) = some r.name := by
  have hpair : rows.Pairwise (fun a b => a.id ≠ b.id) := List.pairwise_map.mp hn
  have hlabpw : rows.Pairwise (fun a b => labelOf a ≠ labelOf b) :=
    hpair.imp (fun hab hlab => hab (labelOf_id_inj hlab))
  have hlab : (rows.map labelOf).Nodup := List.pairwise_map.mpr hlabpw
  have hkeys : ((rows.map (fun r => (labelOf r, r.id))).map Prod.fst).Nodup := by
    rw [List.map_map]
    simpa [Function.comp] using hlab
  have hdict : deleteOptionsDict rows = rows.map (fun r => (labelOf r, r.id)) := by
    unfold deleteOptionsDict
    exact buildDict_eq_self hkeys
  refine ⟨by rw [hdict, List.length_map], by rw [hdict]; exact hkeys, ?_⟩
  intro r hr
  constructor
  · rw [hdict]
    exact dictGet_of_mem hkeys (List.mem_map_of_mem _ hr)
  · rw [splitOnCS_labelOf]
    rfl

/-- A record whose name contains the colon-space separator. -/
def row10a : Row := { id := 1, name := ['b', ':', ' ', 'c'], description := none }

/-- Two records with duplicate separator-containing names and distinct ids. -/
def rows10 : List Row :=
  [row10a, { id := 2, name := ['b', ':', ' ', 'c'], description := some [] }]

/-- C10 witness: the theorem applied to two records with duplicate names
containing the separator. -/
theorem c10_selector_witness :
    (deleteOptionsDict rows10).length = rows10.length ∧
    dictGet (labelOf row10a) (deleteOptionsDict rows10) = some row10a.id ∧
    (splitOnCS (labelOf row10a)).map (fun q => q.2) = some row10a.name := by
  have h := c10_delete_selector_dict rows10 (by decide)
  exact ⟨h.1, (h.2.2 row10a (by decide)).1, (h.2.2 row10a (by decide)).2⟩
